import Mathlib

/-!
# Verification of the Squeeble7th file-based authentication module

A shallow embedding, in Lean 4, of the authentication/identity module of the
Squeeble7th repository (`Database.js`): password hashing and verification,
HMAC-signed JWT-like tokens, refresh-token and reset-token bookkeeping over a
JSON document store.

Modelling conventions:
* Byte buffers (`Buffer`) are `List Nat`, each element a byte value.
* JS strings are Lean `String`s; the byte view of a string (`Buffer.from(s)`)
  is the list of code points, which coincides with UTF-8 for ASCII data.
  Theorems that need the byte/string round trip carry ASCII hypotheses.
* The platform primitives `crypto.scryptSync` and HMAC-SHA256 signing are
  parameters (`scrypt`, `sign`): every theorem is stated for an arbitrary
  implementation, with hypotheses recording the facts the code relies on
  (fixed output length, byte-valued output).  Randomness (salts, ids, raw
  reset tokens) and the clock (`nowSeconds()`) are passed as explicit
  arguments.
* `crypto.timingSafeEqual` throws when the two buffers differ in length; it
  is modelled in `Except String`.
* `JSON.parse` is modelled by a parser for exactly the object shapes this
  module serializes (`parsePayload`); `JSON.stringify` by `stringifyPayload`,
  without escape sequences (theorems carry the no-quote/no-backslash
  hypotheses under which this is exact).
* The persisted JSON document is the `DB` structure; each operation takes the
  current persisted state and returns the persisted state it leaves behind,
  together with its result (`Except String` for operations that throw).
-/

namespace Squeeble

/-! ## Characters and bytes -/

/-- Byte view of a string: code points, which is UTF-8 for ASCII data. -/
def strBytes (s : String) : List Nat := s.data.map Char.toNat

/-- Decode a byte back to a character (`buffer.toString('utf8')`, modelled
pointwise; exact for ASCII bytes). -/
def charOfByte (n : Nat) : Char := Char.ofNat n

/-- `buffer.toString('utf8')` of a byte list, modelled pointwise. -/
def bytesToStr (l : List Nat) : String := String.mk (l.map charOfByte)

/-- ASCII lower-casing of one character (JS `String.prototype.toLowerCase`,
modelled on the ASCII range). -/
def lowerChar (c : Char) : Char :=
  if 65 ≤ c.toNat ∧ c.toNat ≤ 90 then Char.ofNat (c.toNat + 32) else c

/-- JS `s.toLowerCase()`, modelled on the ASCII range. -/
def lowerStr (s : String) : String := String.mk (s.data.map lowerChar)

theorem toNat_ofNat_of_lt {n : Nat} (h : n < 55296) : (Char.ofNat n).toNat = n := by
  unfold Char.ofNat
  rw [dif_pos (Or.inl h)]
  rfl

theorem lowerChar_idem (c : Char) : lowerChar (lowerChar c) = lowerChar c := by
  unfold lowerChar
  by_cases h : 65 ≤ c.toNat ∧ c.toNat ≤ 90
  · rw [if_pos h]
    have ht : (Char.ofNat (c.toNat + 32)).toNat = c.toNat + 32 :=
      toNat_ofNat_of_lt (by omega)
    rw [if_neg (by rw [ht]; omega)]
  · rw [if_neg h, if_neg h]

theorem lowerStr_idem (s : String) : lowerStr (lowerStr s) = lowerStr s := by
  unfold lowerStr
  simp only [List.map_map]
  congr 1
  exact List.map_congr_left (fun c _ => lowerChar_idem c)

/-! ## Hex encoding (`Buffer.prototype.toString('hex')`, `Buffer.from(str, 'hex')`) -/

/-- Value of a hex digit character, or `none`. -/
def hexVal (c : Char) : Option Nat :=
  if 48 ≤ c.toNat ∧ c.toNat ≤ 57 then some (c.toNat - 48)
  else if 97 ≤ c.toNat ∧ c.toNat ≤ 102 then some (c.toNat - 87)
  else if 65 ≤ c.toNat ∧ c.toNat ≤ 70 then some (c.toNat - 55)
  else none

/-- Lower-case hex digit for a value below 16. -/
def hexDigit (n : Nat) : Char := if n < 10 then Char.ofNat (n + 48) else Char.ofNat (n + 87)

/-- `Buffer.from(str, 'hex')`: consume pairs of hex digits, stopping at the
first invalid pair or a dangling digit (Node truncates there). -/
def hexToBytes : List Char → List Nat
  | c1 :: c2 :: r =>
    match hexVal c1, hexVal c2 with
    | some a, some b => (a * 16 + b) :: hexToBytes r
    | _, _ => []
  | _ => []

/-- `buffer.toString('hex')`. -/
def bytesToHex (l : List Nat) : String :=
  String.mk (l.flatMap (fun b => [hexDigit (b / 16), hexDigit (b % 16)]))

/-! ## Base64 / base64url (`Buffer.prototype.toString('base64')` and the
module's `base64UrlEncode` / `base64UrlDecode`) -/

/-- The standard base64 alphabet. -/
def b64Alphabet : List Char :=
  "ABCDEFGHIJKLMNOPQRSTUVWXYZabcdefghijklmnopqrstuvwxyz0123456789+/".data

/-- Character for a sextet value. -/
def b64Char (n : Nat) : Char := b64Alphabet.getD n 'A'

/-- Sextet value of a base64 character, `none` for padding or foreign
characters (Node's lenient decoder skips those). -/
def b64Val (c : Char) : Option Nat := b64Alphabet.findIdx? (fun d => d = c)

/-- Split a byte list into base64 sextets (without padding). -/
def bytesToSextets : List Nat → List Nat
  | [] => []
  | [b0] => [b0 / 4, b0 % 4 * 16]
  | [b0, b1] => [b0 / 4, b0 % 4 * 16 + b1 / 16, b1 % 16 * 4]
  | b0 :: b1 :: b2 :: r =>
    b0 / 4 :: (b0 % 4 * 16 + b1 / 16) :: (b1 % 16 * 4 + b2 / 64) :: b2 % 64 ::
      bytesToSextets r

/-- Reassemble bytes from base64 sextets (a trailing single sextet carries no
complete byte and is dropped, as in Node's decoder). -/
def sextetsToBytes : List Nat → List Nat
  | s0 :: s1 :: s2 :: s3 :: r =>
    (s0 * 4 + s1 / 16) :: (s1 % 16 * 16 + s2 / 4) :: (s2 % 4 * 64 + s3) ::
      sextetsToBytes r
  | [s0, s1] => [s0 * 4 + s1 / 16]
  | [s0, s1, s2] => [s0 * 4 + s1 / 16, s1 % 16 * 16 + s2 / 4]
  | _ => []

/-- Number of `'='` padding characters base64 appends for a payload of `n`
bytes. -/
def b64Pad (n : Nat) : Nat := (3 - n % 3) % 3

/-- `Buffer.from(buf).toString('base64')`. -/
def base64Encode (b : List Nat) : List Char :=
  (bytesToSextets b).map b64Char ++ List.replicate (b64Pad b.length) '='

/-- `Buffer.from(str, 'base64')`: skip padding/foreign characters, regroup
sextets into bytes. -/
def base64Decode (l : List Char) : List Nat :=
  sextetsToBytes (l.filterMap b64Val)

/-- `.replace(/\+/g, '-').replace(/\//g, '_')` on one character. -/
def urlEnc (c : Char) : Char := if c = '+' then '-' else if c = '/' then '_' else c

/-- The reverse substitution: dash back to plus, underscore back to slash,
on one character. -/
def urlDec (c : Char) : Char := if c = '-' then '+' else if c = '_' then '/' else c

/-- Drop the trailing run of `'='` characters (`.replace(/=+$/, '')`). -/
def dropTrailingEq (l : List Char) : List Char :=
  (l.reverse.dropWhile (fun c => c = '=')).reverse

/-- `base64UrlEncode(buf)` from the source: base64, then `+/` → `-_`, then
strip trailing padding. -/
def base64UrlEncode (b : List Nat) : String :=
  String.mk (dropTrailingEq ((base64Encode b).map urlEnc))

/-- Pad with `'='` until the length is a multiple of 4
(`while (str.length % 4) str += '='`). -/
def padTo4 (l : List Char) : List Char :=
  l ++ List.replicate ((4 - l.length % 4) % 4) '='

/-- `base64UrlDecode(str)` from the source: `-_` → `+/`, re-pad, base64
decode. -/
def base64UrlDecode (s : String) : List Nat :=
  base64Decode (padTo4 (s.data.map urlDec))

/-! ### Base64 lemmas -/

theorem b64Val_b64Char : ∀ n < 64, b64Val (b64Char n) = some n := by decide

theorem b64Val_eq_none : b64Val '=' = none := by decide

theorem urlDec_urlEnc_b64Char : ∀ n < 64, urlDec (urlEnc (b64Char n)) = b64Char n := by decide

theorem b64Char_ne_eq : ∀ n < 64, urlEnc (b64Char n) ≠ '=' := by decide

theorem bytesToSextets_lt (b : List Nat) (hb : ∀ x ∈ b, x < 256) :
    ∀ s ∈ bytesToSextets b, s < 64 := by
  match b with
  | [] => intro s hs; simp [bytesToSextets] at hs
  | [b0] =>
    have h0 := hb b0 (by simp)
    intro s hs
    simp only [bytesToSextets, List.mem_cons, List.mem_singleton, List.not_mem_nil,
      or_false] at hs
    rcases hs with h | h <;> omega
  | [b0, b1] =>
    have h0 := hb b0 (by simp)
    have h1 := hb b1 (by simp)
    intro s hs
    simp only [bytesToSextets, List.mem_cons, List.not_mem_nil, or_false] at hs
    rcases hs with h | h | h <;> omega
  | b0 :: b1 :: b2 :: r =>
    have h0 := hb b0 (by simp)
    have h1 := hb b1 (by simp)
    have h2 := hb b2 (by simp)
    have ih := bytesToSextets_lt r (fun x hx => hb x (by simp [hx]))
    intro s hs
    simp only [bytesToSextets, List.mem_cons] at hs
    rcases hs with h | h | h | h | h
    · omega
    · omega
    · omega
    · omega
    · exact ih s h

theorem sextetsToBytes_bytesToSextets (b : List Nat) (hb : ∀ x ∈ b, x < 256) :
    sextetsToBytes (bytesToSextets b) = b := by
  match b with
  | [] => rfl
  | [b0] =>
    have h0 := hb b0 (by simp)
    simp only [bytesToSextets, sextetsToBytes, List.cons.injEq, and_true]
    omega
  | [b0, b1] =>
    have h0 := hb b0 (by simp)
    have h1 := hb b1 (by simp)
    simp only [bytesToSextets, sextetsToBytes, List.cons.injEq, and_true]
    constructor
    · omega
    · omega
  | b0 :: b1 :: b2 :: r =>
    have h0 := hb b0 (by simp)
    have h1 := hb b1 (by simp)
    have h2 := hb b2 (by simp)
    have ih := sextetsToBytes_bytesToSextets r (fun x hx => hb x (by simp [hx]))
    simp only [bytesToSextets, sextetsToBytes, List.cons.injEq]
    refine ⟨by omega, by omega, by omega, ih⟩

theorem dropWhile_replicate_append (p : Char → Bool) (a : Char) (hp : p a = true) :
    ∀ (k : Nat) (t : List Char),
      (List.replicate k a ++ t).dropWhile p = t.dropWhile p := by
  intro k
  induction k with
  | zero => intro t; rfl
  | succ n ih =>
    intro t
    simp only [List.replicate_succ, List.cons_append, List.dropWhile_cons, hp, if_true]
    exact ih t

theorem dropTrailingEq_append_pad (y : List Char) (k : Nat)
    (hy : ∀ c ∈ y, c ≠ '=') :
    dropTrailingEq (y ++ List.replicate k '=') = y := by
  unfold dropTrailingEq
  rw [List.reverse_append, List.reverse_replicate]
  rw [dropWhile_replicate_append (fun c => c = '=') '=' (by simp) k y.reverse]
  have : y.reverse.dropWhile (fun c => c = '=') = y.reverse := by
    cases hrev : y.reverse with
    | nil => rfl
    | cons c t =>
      have hc : c ∈ y := by
        have : c ∈ y.reverse := by rw [hrev]; simp
        simpa using this
      rw [List.dropWhile_cons]
      simp [hy c hc]
  rw [this, List.reverse_reverse]

/-- The characters of `base64UrlEncode b`: the sextet characters through the
URL-safe substitution, with no padding left. -/
theorem base64UrlEncode_data (b : List Nat) (hb : ∀ x ∈ b, x < 256) :
    (base64UrlEncode b).data = (bytesToSextets b).map (fun s => urlEnc (b64Char s)) := by
  unfold base64UrlEncode base64Encode
  simp only [List.map_append, List.map_map, List.map_replicate]
  have hrep : urlEnc '=' = '=' := rfl
  have hy : ∀ c ∈ (bytesToSextets b).map (urlEnc ∘ b64Char), c ≠ '=' := by
    intro c hc
    simp only [List.mem_map, Function.comp] at hc
    obtain ⟨s, hs, rfl⟩ := hc
    exact b64Char_ne_eq s (bytesToSextets_lt b hb s hs)
  rw [hrep, dropTrailingEq_append_pad _ _ hy]
  simp [Function.comp]

theorem filterMap_b64Val_replicate (k : Nat) :
    (List.replicate k '=').filterMap b64Val = [] := by
  induction k with
  | zero => rfl
  | succ n ih => simp [List.replicate_succ, List.filterMap_cons, b64Val_eq_none, ih]

theorem filterMap_b64Val_map (S : List Nat) (hS : ∀ s ∈ S, s < 64) :
    (S.map (fun s => urlDec (urlEnc (b64Char s)))).filterMap b64Val = S := by
  induction S with
  | nil => rfl
  | cons s t ih =>
    have hs : s < 64 := hS s (by simp)
    simp only [List.map_cons, List.filterMap_cons]
    rw [urlDec_urlEnc_b64Char s hs, b64Val_b64Char s hs]
    rw [ih (fun x hx => hS x (by simp [hx]))]

/-- **Base64url round trip**: decoding an encoded byte buffer returns the
buffer, for genuine byte values. -/
theorem base64UrlDecode_base64UrlEncode (b : List Nat) (hb : ∀ x ∈ b, x < 256) :
    base64UrlDecode (base64UrlEncode b) = b := by
  unfold base64UrlDecode base64Decode padTo4
  rw [base64UrlEncode_data b hb]
  rw [List.map_map]
  rw [List.filterMap_append]
  have hmap : (bytesToSextets b).map (urlDec ∘ fun s => urlEnc (b64Char s))
      = (bytesToSextets b).map (fun s => urlDec (urlEnc (b64Char s))) := by
    simp [Function.comp]
  rw [hmap, filterMap_b64Val_map _ (bytesToSextets_lt b hb), filterMap_b64Val_replicate,
    List.append_nil]
  exact sextetsToBytes_bytesToSextets b hb

/-! ## Decimal numbers (JSON number serialization and parsing) -/

/-- Character for a decimal digit value. -/
def digitCharOf (n : Nat) : Char := Char.ofNat (n + 48)

/-- Is the character a decimal digit? -/
def isDigitC (c : Char) : Bool := decide (48 ≤ c.toNat ∧ c.toNat ≤ 57)

/-- Decimal digits, least significant first, with explicit fuel so that the
definition is structurally recursive (and so computes inside the kernel). -/
def revDigitsAux : Nat → Nat → List Char
  | _, 0 => []
  | 0, _ + 1 => []
  | fuel + 1, n + 1 => digitCharOf ((n + 1) % 10) :: revDigitsAux fuel ((n + 1) / 10)

/-- Decimal digits of `n`, least significant first. -/
def revDigits (n : Nat) : List Char := revDigitsAux n n

theorem revDigitsAux_zero (f : Nat) : revDigitsAux f 0 = [] := by
  cases f <;> rfl

theorem revDigitsAux_fuel (f1 : Nat) :
    ∀ f2 n, n ≤ f1 → n ≤ f2 → revDigitsAux f1 n = revDigitsAux f2 n := by
  induction f1 with
  | zero =>
    intro f2 n h1 _
    have : n = 0 := by omega
    rw [this, revDigitsAux_zero, revDigitsAux_zero]
  | succ f ih =>
    intro f2 n h1 h2
    match n with
    | 0 => rw [revDigitsAux_zero, revDigitsAux_zero]
    | m + 1 =>
      match f2, h2 with
      | g + 1, _ =>
        show digitCharOf ((m + 1) % 10) :: revDigitsAux f ((m + 1) / 10)
          = digitCharOf ((m + 1) % 10) :: revDigitsAux g ((m + 1) / 10)
        congr 1
        exact ih g ((m + 1) / 10) (by omega) (by omega)

theorem revDigits_zero : revDigits 0 = [] := rfl

theorem revDigits_succ (n : Nat) (h : 0 < n) :
    revDigits n = digitCharOf (n % 10) :: revDigits (n / 10) := by
  match n, h with
  | m + 1, _ =>
    show revDigitsAux (m + 1) (m + 1) = _
    have hstep : revDigitsAux (m + 1) (m + 1)
        = digitCharOf ((m + 1) % 10) :: revDigitsAux m ((m + 1) / 10) := rfl
    rw [hstep]
    congr 1
    exact revDigitsAux_fuel m ((m + 1) / 10) ((m + 1) / 10) (by omega) (by omega)

/-- Decimal representation of a natural number. -/
def natChars (n : Nat) : List Char := if n = 0 then ['0'] else (revDigits n).reverse

/-- Decimal representation of an integer (JSON number serialization). -/
def intChars (i : Int) : List Char :=
  if i < 0 then '-' :: natChars (-i).toNat else natChars i.toNat

/-- One step of decimal accumulation. -/
def digitStep (a : Nat) (c : Char) : Nat := a * 10 + (c.toNat - 48)

/-- Consume a maximal run of decimal digits, accumulating their value. -/
def parseDigitsAux : Nat → List Char → Nat × List Char
  | acc, c :: r =>
    if isDigitC c then parseDigitsAux (acc * 10 + (c.toNat - 48)) r else (acc, c :: r)
  | acc, [] => (acc, [])

/-- Parse a nonempty digit run into a natural number. -/
def parseNatPart : List Char → Option (Nat × List Char)
  | c :: r => if isDigitC c then some (parseDigitsAux 0 (c :: r)) else none
  | [] => none

/-- Parse an optionally negated decimal integer. -/
def parseIntPart : List Char → Option (Int × List Char)
  | c :: r =>
    if c = '-' then (parseNatPart r).map (fun p => (-(p.1 : Int), p.2))
    else (parseNatPart (c :: r)).map (fun p => ((p.1 : Int), p.2))
  | [] => none

theorem toNat_digitCharOf {d : Nat} (h : d < 10) : (digitCharOf d).toNat = d + 48 := by
  unfold digitCharOf
  exact toNat_ofNat_of_lt (by omega)

theorem isDigitC_digitCharOf {d : Nat} (h : d < 10) : isDigitC (digitCharOf d) = true := by
  unfold isDigitC
  rw [toNat_digitCharOf h]
  simp
  omega

theorem revDigits_all_digits (n : Nat) : ∀ c ∈ revDigits n, isDigitC c = true := by
  induction n using Nat.strong_induction_on with
  | _ n ih =>
    match n with
    | 0 => intro c hc; rw [revDigits_zero] at hc; simp at hc
    | m + 1 =>
      intro c hc
      rw [revDigits_succ (m + 1) (by omega)] at hc
      rcases List.mem_cons.mp hc with h | h
      · rw [h]; exact isDigitC_digitCharOf (Nat.mod_lt _ (by norm_num))
      · exact ih ((m + 1) / 10) (by omega) c h

theorem natChars_all_digits (n : Nat) : ∀ c ∈ natChars n, isDigitC c = true := by
  unfold natChars
  split
  · intro c hc
    simp only [List.mem_singleton] at hc
    rw [hc]
    decide
  · intro c hc
    exact revDigits_all_digits n c (List.mem_reverse.mp hc)

theorem foldl_revDigits (n : Nat) (hn : 0 < n) :
    ∀ acc, ((revDigits n).reverse).foldl digitStep acc
      = acc * 10 ^ (revDigits n).length + n := by
  induction n using Nat.strong_induction_on with
  | _ n ih =>
    intro acc
    match n, hn with
    | m + 1, _ =>
      rw [revDigits_succ (m + 1) (by omega)]
      by_cases hq : (m + 1) / 10 = 0
      · have hm : m + 1 < 10 := by omega
        rw [hq]
        simp only [revDigits_zero, List.reverse_cons, List.reverse_nil, List.nil_append,
          List.foldl_cons, List.foldl_nil, List.length_cons, List.length_nil]
        unfold digitStep
        rw [toNat_digitCharOf (Nat.mod_lt _ (by norm_num))]
        have : (m + 1) % 10 = m + 1 := Nat.mod_eq_of_lt hm
        rw [this]
        omega
      · rw [List.reverse_cons, List.foldl_append]
        rw [ih ((m + 1) / 10) (by omega) (Nat.pos_of_ne_zero hq) acc]
        simp only [List.foldl_cons, List.foldl_nil, List.length_cons]
        unfold digitStep
        rw [toNat_digitCharOf (Nat.mod_lt _ (by norm_num))]
        have hsplit : 10 * ((m + 1) / 10) + (m + 1) % 10 = m + 1 := Nat.div_add_mod _ 10
        rw [pow_succ]
        calc (acc * 10 ^ (revDigits ((m + 1) / 10)).length + (m + 1) / 10) * 10
              + ((m + 1) % 10 + 48 - 48)
            = acc * (10 ^ (revDigits ((m + 1) / 10)).length * 10)
              + (10 * ((m + 1) / 10) + (m + 1) % 10) := by
              have : (m + 1) % 10 + 48 - 48 = (m + 1) % 10 := by omega
              rw [this]; ring
          _ = acc * (10 ^ (revDigits ((m + 1) / 10)).length * 10) + (m + 1) := by
              rw [hsplit]

theorem foldl_natChars (n : Nat) : (natChars n).foldl digitStep 0 = n := by
  unfold natChars
  split
  · next h => rw [h]; decide
  · rw [foldl_revDigits n (Nat.pos_of_ne_zero (by assumption)) 0]
    simp

/-- A list that does not begin with a decimal digit. -/
def headNotDigit : List Char → Prop
  | [] => True
  | c :: _ => isDigitC c = false

theorem parseDigitsAux_append (x : List Char) (hx : ∀ c ∈ x, isDigitC c = true)
    (r : List Char) (hr : headNotDigit r) (acc : Nat) :
    parseDigitsAux acc (x ++ r) = (x.foldl digitStep acc, r) := by
  induction x generalizing acc with
  | nil =>
    simp only [List.nil_append, List.foldl_nil]
    match r, hr with
    | [], _ => rfl
    | c :: t, hr =>
      have hc : isDigitC c = false := hr
      simp [parseDigitsAux, hc]
  | cons c x ih =>
    have hc := hx c (by simp)
    simp only [List.cons_append, parseDigitsAux, hc, if_true, List.foldl_cons]
    exact ih (fun d hd => hx d (by simp [hd])) _

theorem natChars_ne_nil (n : Nat) : natChars n ≠ [] := by
  unfold natChars
  split
  · simp
  · simp only [ne_eq, List.reverse_eq_nil_iff]
    match n, (by assumption : n ≠ 0) with
    | m + 1, _ => rw [revDigits_succ (m + 1) (by omega)]; simp

theorem parseNatPart_natChars (n : Nat) (r : List Char) (hr : headNotDigit r) :
    parseNatPart (natChars n ++ r) = some (n, r) := by
  match hnc : natChars n with
  | [] => exact absurd hnc (natChars_ne_nil n)
  | c :: t =>
    have hc : isDigitC c = true := natChars_all_digits n c (by rw [hnc]; simp)
    simp only [List.cons_append, parseNatPart, hc, if_true]
    have := parseDigitsAux_append (natChars n) (natChars_all_digits n) r hr 0
    rw [hnc] at this
    simp only [List.cons_append] at this
    rw [this]
    rw [← hnc, foldl_natChars]

theorem natChars_head_not_dash (n : Nat) (c : Char) (t : List Char)
    (h : natChars n = c :: t) : ¬ c = '-' := by
  have hc : isDigitC c = true := natChars_all_digits n c (by rw [h]; simp)
  intro hdash
  rw [hdash] at hc
  simp [isDigitC] at hc

theorem parseIntPart_intChars (i : Int) (r : List Char) (hr : headNotDigit r) :
    parseIntPart (intChars i ++ r) = some (i, r) := by
  unfold intChars
  split
  · next hneg =>
    simp only [List.cons_append, parseIntPart, if_pos rfl]
    rw [parseNatPart_natChars _ r hr]
    have hcast : (((-i).toNat : Int)) = -i := Int.toNat_of_nonneg (by omega)
    simp [hcast]
  · next hpos =>
    match hnc : natChars i.toNat with
    | [] => exact absurd hnc (natChars_ne_nil _)
    | c :: t =>
      have hdash := natChars_head_not_dash _ _ _ hnc
      simp only [List.cons_append, parseIntPart, if_neg hdash]
      rw [show c :: (t ++ r) = natChars i.toNat ++ r by rw [hnc]; rfl]
      rw [parseNatPart_natChars _ r hr]
      have hcast : ((i.toNat : Int)) = i := Int.toNat_of_nonneg (by omega)
      simp [hcast]

/-! ## Token payloads and their JSON form

`JSON.stringify` / `JSON.parse` are platform functions; they are modelled for
exactly the object shape this module serializes:
`\x7b"sub":…,"type":…,"iat":…,"exp":…\x7d`, which is the payload
`_createToken` builds (caller fields `sub`, `type`, then `iat`, `exp`, in
insertion order).  The serializer writes strings without escape sequences, so
it is exact for strings free of `"` and backslash; theorems carry that
hypothesis. -/

/-- A token payload: subject, type discriminator, issued-at, expiry. -/
structure Payload where
  sub : String
  type : String
  iat : Int
  exp : Int
deriving DecidableEq

/-- `JSON.stringify` of the payload object built by `_createToken`. -/
def stringifyPayload (p : Payload) : String :=
  "\x7b\"sub\":\"" ++ p.sub ++ "\",\"type\":\"" ++ p.type ++ "\",\"iat\":"
    ++ String.mk (intChars p.iat) ++ ",\"exp\":" ++ String.mk (intChars p.exp) ++ "\x7d"

/-- Strip an expected literal prefix. -/
def stripPref : List Char → List Char → Option (List Char)
  | [], l => some l
  | _ :: _, [] => none
  | p :: ps, c :: cs => if c = p then stripPref ps cs else none

/-- Consume characters up to (and including) the next `"`. -/
def takeUntilQuote : List Char → Option (List Char × List Char)
  | [] => none
  | c :: r =>
    if c = '"' then some ([], r)
    else match takeUntilQuote r with
      | none => none
      | some (a, rest) => some (c :: a, rest)

/-- `JSON.parse`, modelled for the serialized payload shape. -/
def parsePayload (s : String) : Option Payload := do
  let r1 ← stripPref "\x7b\"sub\":\"".data s.data
  let (subChars, r2) ← takeUntilQuote r1
  let r3 ← stripPref ",\"type\":\"".data r2
  let (typeChars, r4) ← takeUntilQuote r3
  let r5 ← stripPref ",\"iat\":".data r4
  let (iat, r6) ← parseIntPart r5
  let r7 ← stripPref ",\"exp\":".data r6
  let (exp, r8) ← parseIntPart r7
  let r9 ← stripPref "\x7d".data r8
  if r9 = [] then some ⟨String.mk subChars, String.mk typeChars, iat, exp⟩ else none

/-- Strings that serialize without JSON escapes. -/
def jsonPlain (s : String) : Prop := ∀ c ∈ s.data, ¬ c = '"' ∧ ¬ c = '\\'

instance (s : String) : Decidable (jsonPlain s) := by
  unfold jsonPlain
  infer_instance

theorem stripPref_append (p : List Char) (r : List Char) :
    stripPref p (p ++ r) = some r := by
  induction p with
  | nil => rfl
  | cons c t ih => simp [stripPref, ih]

theorem takeUntilQuote_append (a : List Char) (ha : ∀ c ∈ a, ¬ c = '"')
    (r : List Char) : takeUntilQuote (a ++ '"' :: r) = some (a, r) := by
  induction a with
  | nil => simp [takeUntilQuote]
  | cons c t ih =>
    have hc := ha c (by simp)
    have ih2 := ih (fun d hd => ha d (by simp [hd]))
    simp only [List.cons_append, takeUntilQuote, if_neg hc]
    rw [List.append_eq, ih2]

theorem data_stringifyPayload (p : Payload) :
    (stringifyPayload p).data
      = "\x7b\"sub\":\"".data ++ (p.sub.data ++ '"' :: (",\"type\":\"".data
        ++ (p.type.data ++ '"' :: (",\"iat\":".data ++ (intChars p.iat
        ++ (",\"exp\":".data ++ (intChars p.exp ++ ['\x7d']))))))) := by
  unfold stringifyPayload
  simp only [String.data_append]
  simp [String.data]

/-- Parsing a serialized payload returns the payload, provided `sub` and
`type` need no JSON escapes. -/
theorem parsePayload_stringifyPayload (p : Payload)
    (hsub : jsonPlain p.sub) (hty : jsonPlain p.type) :
    parsePayload (stringifyPayload p) = some p := by
  unfold parsePayload
  rw [data_stringifyPayload p]
  rw [stripPref_append]
  simp only [Option.bind_eq_bind, Option.some_bind]
  rw [takeUntilQuote_append p.sub.data (fun c hc => (hsub c hc).1)]
  simp only [Option.some_bind]
  rw [stripPref_append]
  simp only [Option.some_bind]
  rw [takeUntilQuote_append p.type.data (fun c hc => (hty c hc).1)]
  simp only [Option.some_bind]
  rw [stripPref_append]
  simp only [Option.some_bind]
  rw [parseIntPart_intChars p.iat _ (by exact rfl)]
  simp only [Option.some_bind]
  rw [stripPref_append]
  simp only [Option.some_bind]
  rw [parseIntPart_intChars p.exp _ (by exact rfl)]
  simp only [Option.some_bind]
  rw [show stripPref "\x7d".data ['\x7d'] = some [] from rfl]
  simp

/-! ## JS `String.prototype.split` with a single-character separator -/

/-- `str.split(sep)` at the character-list level. -/
def splitJs (sep : Char) : List Char → List (List Char)
  | [] => [[]]
  | c :: r =>
    match splitJs sep r with
    | [] => [[]]
    | h :: t => if c = sep then [] :: h :: t else (c :: h) :: t

theorem splitJs_cons (sep c : Char) (r : List Char) :
    splitJs sep (c :: r) = match splitJs sep r with
      | [] => [[]]
      | h :: t => if c = sep then [] :: h :: t else (c :: h) :: t := rfl

theorem splitJs_ne_nil (sep : Char) (l : List Char) : splitJs sep l ≠ [] := by
  cases l with
  | nil => simp [splitJs]
  | cons c r =>
    rw [splitJs_cons]
    cases splitJs sep r with
    | nil => simp
    | cons h t => by_cases hc : c = sep <;> simp [hc]

theorem splitJs_no_sep (sep : Char) (a : List Char) (ha : ∀ c ∈ a, ¬ c = sep) :
    splitJs sep a = [a] := by
  induction a with
  | nil => rfl
  | cons c t ih =>
    have hc := ha c (by simp)
    rw [splitJs_cons, ih (fun d hd => ha d (by simp [hd]))]
    simp [hc]

theorem splitJs_append_sep (sep : Char) (a : List Char) (ha : ∀ c ∈ a, ¬ c = sep)
    (t : List Char) :
    splitJs sep (a ++ sep :: t) = a :: splitJs sep t := by
  induction a with
  | nil =>
    rw [List.nil_append, splitJs_cons]
    cases h : splitJs sep t with
    | nil => exact absurd h (splitJs_ne_nil sep t)
    | cons h1 t1 => simp
  | cons c r ih =>
    have hc := ha c (by simp)
    simp only [List.cons_append]
    rw [splitJs_cons, ih (fun d hd => ha d (by simp [hd]))]
    simp [hc]

/-- Splitting `a ++ '.' ++ b ++ '.' ++ c` on dots, when none of the segments
contains a dot, yields exactly the three segments. -/
theorem splitJs_three (sep : Char) (a b c : List Char)
    (ha : ∀ x ∈ a, ¬ x = sep) (hb : ∀ x ∈ b, ¬ x = sep) (hc : ∀ x ∈ c, ¬ x = sep) :
    splitJs sep (a ++ sep :: (b ++ sep :: c)) = [a, b, c] := by
  rw [splitJs_append_sep sep a ha, splitJs_append_sep sep b hb, splitJs_no_sep sep c hc]

/-! ## Crypto primitives

`crypto.timingSafeEqual` throws a `RangeError` when the buffers differ in
byte length; otherwise it returns whether they are equal.  `scrypt` and
`sign` (HMAC-SHA256 with the process secret) are parameters throughout. -/

/-- `crypto.timingSafeEqual(a, b)`. -/
def timingSafeEqual (a b : List Nat) : Except String Bool :=
  if a.length = b.length then .ok (decide (a = b))
  else .error "ERR_CRYPTO_TIMING_SAFE_EQUAL_LENGTH"

/-! ## Password helpers (`_hashPassword`, `_verifyPassword`) -/

/-- `_hashPassword(password)`: the random 16-byte salt (as hex) is the
`saltHex` argument; returns `salt$derivedHex`. -/
def hashPassword (scrypt : String → String → List Nat) (saltHex password : String) :
    String :=
  saltHex ++ "$" ++ bytesToHex (scrypt password saltHex)

/-- `_verifyPassword(stored, supplied)`.  The `Except` layer records that
`timingSafeEqual` throws on buffers of different lengths and nothing
catches it here. -/
def verifyPassword (scrypt : String → String → List Nat) (stored supplied : String) :
    Except String Bool :=
  if stored = "" ∨ supplied = "" then .ok false
  else
    match (splitJs '$' stored.data)[1]? with
    | none => .ok false
    | some derivedHex =>
      if (splitJs '$' stored.data).headD [] = [] ∨ derivedHex = [] then .ok false
      else
        timingSafeEqual (hexToBytes derivedHex)
          (scrypt supplied (String.mk ((splitJs '$' stored.data).headD [])))

/-! ## Tokens (`_createToken`, `_verifyToken`, `verifyAccessToken`) -/

/-- Access-token lifetime in seconds (`15 * 60`). -/
def ACCESS_TOKEN_EXP : Int := 900

/-- Refresh-token lifetime in seconds (`7 * 24 * 3600`). -/
def REFRESH_TOKEN_EXP : Int := 604800

/-- Reset-token lifetime in seconds (`60 * 60`). -/
def RESET_TOKEN_EXP : Int := 3600

/-- `JSON.stringify({ alg: 'HS256', typ: 'JWT' })`. -/
def headerJson : String := "\x7b\"alg\":\"HS256\",\"typ\":\"JWT\"\x7d"

/-- `_createToken(payloadObj, expiresInSeconds)` for the payloads the module
builds (`sub` and `type` caller fields, `iat = now`, `exp = now + ttl`). -/
def createToken (sign : String → List Nat) (sub ty : String) (now ttl : Int) : String :=
  base64UrlEncode (strBytes headerJson) ++ "."
    ++ base64UrlEncode (strBytes (stringifyPayload ⟨sub, ty, now, now + ttl⟩)) ++ "."
    ++ base64UrlEncode (sign (base64UrlEncode (strBytes headerJson) ++ "."
        ++ base64UrlEncode (strBytes (stringifyPayload ⟨sub, ty, now, now + ttl⟩))))

/-- `_verifyToken(token)`: split on dots (JS destructuring reads only the
first three segments), check the first three are present and nonempty,
compare the signature in constant time (a length mismatch throws, which the
surrounding `try` turns into `null`), parse the payload, and test expiry —
skipped entirely when `exp` is absent or `0`, since `payload.exp &&` is a
JS truthiness test. -/
def verifyToken (sign : String → List Nat) (now : Int) (token : String) :
    Option Payload :=
  match (splitJs '.' token.data)[0]?, (splitJs '.' token.data)[1]?,
      (splitJs '.' token.data)[2]? with
  | some h, some p, some s =>
    if h = [] ∨ p = [] ∨ s = [] then none
    else
      match timingSafeEqual (base64UrlDecode (String.mk s))
          (base64UrlDecode (base64UrlEncode (sign (String.mk (h ++ '.' :: p))))) with
      | .error _ => none
      | .ok false => none
      | .ok true =>
        match parsePayload (bytesToStr (base64UrlDecode (String.mk p))) with
        | none => none
        | some payload =>
          if payload.exp ≠ 0 ∧ now > payload.exp then none else some payload
  | _, _, _ => none

/-- `verifyAccessToken(token)`: delegate to `_verifyToken`, then reject
payloads whose type discriminator is not `access`.  Takes no database
argument: it never reads or writes persisted state. -/
def verifyAccessToken (sign : String → List Nat) (now : Int) (token : String) :
    Option Payload :=
  match verifyToken sign now token with
  | none => none
  | some payload => if ¬ payload.type = "access" then none else some payload

/-! ## The persisted JSON document and the user operations -/

/-- A persisted user record. -/
structure User where
  id : String
  username : String
  email : String
  password : String
  createdAt : Int
deriving DecidableEq

/-- A persisted refresh-token record. -/
structure RefreshRec where
  token : String
  userId : String
  expiresAt : Int
deriving DecidableEq

/-- A persisted reset-token record. -/
structure ResetRec where
  userId : String
  tokenHash : String
  expiresAt : Int
deriving DecidableEq

/-- The persisted JSON document (`squeeble_db.json`). -/
structure DB where
  users : List User
  refreshTokens : List RefreshRec
  resetTokens : List ResetRec
deriving DecidableEq

/-- The public projection of a user (`{ id, username, email }`). -/
structure PublicUser where
  id : String
  username : String
  email : String
deriving DecidableEq

/-- Result of `authenticate`. -/
structure AuthResult where
  accessToken : String
  refreshToken : String
  user : PublicUser
deriving DecidableEq

/-- `register({ username, email, password })`.  The random id and salt are
the `id` / `saltHex` arguments; `now` is the clock.  Returns the result (or
thrown error identifier) together with the persisted state left behind. -/
def register (scrypt : String → String → List Nat) (saltHex id : String) (now : Int)
    (db : DB) (username email password : String) : Except String PublicUser × DB :=
  if username = "" ∨ email = "" ∨ password = "" then
    (.error "username, email and password required", db)
  else if (db.users.find? (fun u => decide (u.username = lowerStr username))).isSome then
    (.error "username_taken", db)
  else if (db.users.find? (fun u => decide (u.email = lowerStr email))).isSome then
    (.error "email_taken", db)
  else
    (.ok ⟨id, lowerStr username, lowerStr email⟩,
      { db with users := db.users
          ++ [⟨id, lowerStr username, lowerStr email,
                hashPassword scrypt saltHex password, now⟩] })

/-- `authenticate(usernameOrEmail, password)`. -/
def authenticate (scrypt : String → String → List Nat) (sign : String → List Nat)
    (now : Int) (db : DB) (usernameOrEmail password : String) :
    Except String AuthResult × DB :=
  if usernameOrEmail = "" ∨ password = "" then (.error "credentials required", db)
  else
    match db.users.find? (fun u =>
        decide (u.username = lowerStr usernameOrEmail ∨ u.email = lowerStr usernameOrEmail)) with
    | none => (.error "invalid_credentials", db)
    | some user =>
      match verifyPassword scrypt user.password password with
      | .error e => (.error e, db)
      | .ok false => (.error "invalid_credentials", db)
      | .ok true =>
        (.ok ⟨createToken sign user.id "access" now ACCESS_TOKEN_EXP,
              createToken sign user.id "refresh" now REFRESH_TOKEN_EXP,
              ⟨user.id, user.username, user.email⟩⟩,
          { db with refreshTokens :=
              db.refreshTokens
                ++ [⟨createToken sign user.id "refresh" now REFRESH_TOKEN_EXP,
                      user.id, now + REFRESH_TOKEN_EXP⟩] })

/-- `refreshAccessToken(refreshToken)`. -/
def refreshAccessToken (sign : String → List Nat) (now : Int) (db : DB)
    (refreshToken : String) : Except String String × DB :=
  if refreshToken = "" then (.error "missing_refresh_token", db)
  else
    match db.refreshTokens.find? (fun r => decide (r.token = refreshToken)) with
    | none => (.error "invalid_refresh_token", db)
    | some stored =>
      if now > stored.expiresAt then
        (.error "refresh_token_expired",
          { db with refreshTokens :=
              db.refreshTokens.filter (fun r => decide (¬ r.token = refreshToken)) })
      else
        match verifyToken sign now refreshToken with
        | none => (.error "invalid_refresh_token", db)
        | some payload =>
          if ¬ payload.type = "refresh" then (.error "invalid_refresh_token", db)
          else (.ok (createToken sign payload.sub "access" now ACCESS_TOKEN_EXP), db)

/-- `revokeRefreshToken(refreshToken)`. -/
def revokeRefreshToken (db : DB) (refreshToken : String) : DB :=
  { db with refreshTokens :=
      db.refreshTokens.filter (fun r => decide (¬ r.token = refreshToken)) }

/-- In-place mutation of the first user whose id matches
(`user.password = hashed` after `find`). -/
def setPasswordFirst (userId hashed : String) : List User → List User
  | [] => []
  | u :: r =>
    if u.id = userId then { u with password := hashed } :: r
    else u :: setPasswordFirst userId hashed r

/-- `changePassword(userId, oldPassword, newPassword)`. -/
def changePassword (scrypt : String → String → List Nat) (saltHex : String) (db : DB)
    (userId oldPassword newPassword : String) : Except String Bool × DB :=
  if userId = "" ∨ oldPassword = "" ∨ newPassword = "" then (.error "missing_params", db)
  else
    match db.users.find? (fun u => decide (u.id = userId)) with
    | none => (.error "user_not_found", db)
    | some user =>
      match verifyPassword scrypt user.password oldPassword with
      | .error e => (.error e, db)
      | .ok false => (.error "invalid_current_password", db)
      | .ok true =>
        (.ok true,
          { db with users :=
              setPasswordFirst userId (hashPassword scrypt saltHex newPassword) db.users })

/-- `generateResetToken(email)`; the random raw token is the `rawToken`
argument. -/
def generateResetToken (sign : String → List Nat) (rawToken : String) (now : Int)
    (db : DB) (email : String) : Except String (String × Int) × DB :=
  if email = "" then (.error "email required", db)
  else
    match db.users.find? (fun u => decide (u.email = lowerStr email)) with
    | none => (.error "user_not_found", db)
    | some user =>
      (.ok (rawToken, now + RESET_TOKEN_EXP),
        { db with resetTokens :=
            db.resetTokens ++ [⟨user.id, bytesToHex (sign rawToken), now + RESET_TOKEN_EXP⟩] })

/-- `verifyResetToken(rawToken)`: verify-only probe, except that an expired
record is deleted and the deletion persisted. -/
def verifyResetToken (sign : String → List Nat) (now : Int) (db : DB)
    (rawToken : String) : Option String × DB :=
  if rawToken = "" then (none, db)
  else
    match db.resetTokens.find? (fun r => decide (r.tokenHash = bytesToHex (sign rawToken))) with
    | none => (none, db)
    | some rec =>
      if now > rec.expiresAt then
        (none,
          { db with resetTokens := db.resetTokens.filter fun r =>
              decide (¬ r.tokenHash = bytesToHex (sign rawToken)) })
      else (some rec.userId, db)

/-- `consumeResetToken(rawToken, newPassword)`: verifies the token, then
calls `changePassword(userId, newPassword, newPassword)` (the source comment
says "bypass old password: overwrite"), then removes every reset record
matching the token digest or the user. -/
def consumeResetToken (scrypt : String → String → List Nat)
    (sign : String → List Nat) (saltHex : String) (now : Int) (db : DB)
    (rawToken newPassword : String) : Except String Bool × DB :=
  match (verifyResetToken sign now db rawToken).1 with
  | none => (.error "invalid_reset_token", (verifyResetToken sign now db rawToken).2)
  | some userId =>
    match changePassword scrypt saltHex (verifyResetToken sign now db rawToken).2 userId
        newPassword newPassword with
    | (.error e, db2) => (.error e, db2)
    | (.ok _, db2) =>
      (.ok true,
        { db2 with resetTokens := db2.resetTokens.filter (fun r => decide (¬ r.tokenHash = bytesToHex (sign rawToken)) && decide (¬ r.userId = userId)) })

/-- `getUserById(id)`: read-only projection, never exposes the password. -/
def getUserById (db : DB) (id : String) : Option (PublicUser × Int) :=
  match db.users.find? (fun u => decide (u.id = id)) with
  | none => none
  | some u => some (⟨u.id, u.username, u.email⟩, u.createdAt)

/-- `cleanupExpired()`. -/
def cleanupExpired (now : Int) (db : DB) : DB :=
  { db with
      refreshTokens := db.refreshTokens.filter (fun r => decide (r.expiresAt > now)),
      resetTokens := db.resetTokens.filter (fun r => decide (r.expiresAt > now)) }

/-! ## The token round trip -/

/-- ASCII strings: the code-point view used for byte conversion is exact. -/
def asciiStr (s : String) : Prop := ∀ c ∈ s.data, c.toNat < 128

instance (s : String) : Decidable (asciiStr s) := by
  unfold asciiStr
  infer_instance

theorem bytesToStr_strBytes (s : String) : bytesToStr (strBytes s) = s := by
  unfold bytesToStr strBytes charOfByte
  rw [List.map_map]
  have h : s.data.map (Char.ofNat ∘ Char.toNat) = s.data.map id :=
    List.map_congr_left (fun c _ => Char.ofNat_toNat c)
  rw [h, List.map_id]

theorem strBytes_lt_256 (s : String) (h : asciiStr s) : ∀ x ∈ strBytes s, x < 256 := by
  intro x hx
  unfold strBytes at hx
  obtain ⟨c, hc, rfl⟩ := List.mem_map.mp hx
  have := h c hc
  omega

theorem toNat_lt_of_isDigitC {c : Char} (h : isDigitC c = true) : c.toNat < 128 := by
  unfold isDigitC at h
  simp only [decide_eq_true_eq] at h
  omega

theorem ascii_intChars (i : Int) : ∀ c ∈ intChars i, c.toNat < 128 := by
  intro c hc
  unfold intChars at hc
  have hnat : ∀ n : Nat, c ∈ natChars n → c.toNat < 128 := by
    intro n hn
    exact toNat_lt_of_isDigitC (natChars_all_digits n c hn)
  split at hc
  · rcases List.mem_cons.mp hc with h | h
    · rw [h]; decide
    · exact hnat _ h
  · exact hnat _ hc

theorem ascii_stringifyPayload (p : Payload) (hsub : asciiStr p.sub)
    (hty : asciiStr p.type) : asciiStr (stringifyPayload p) := by
  intro c hc
  rw [data_stringifyPayload] at hc
  have l1 : ∀ c ∈ "\x7b\"sub\":\"".data, c.toNat < 128 := by decide
  have l2 : ∀ c ∈ ",\"type\":\"".data, c.toNat < 128 := by decide
  have l3 : ∀ c ∈ ",\"iat\":".data, c.toNat < 128 := by decide
  have l4 : ∀ c ∈ ",\"exp\":".data, c.toNat < 128 := by decide
  rcases List.mem_append.mp hc with h | hc1
  · exact l1 c h
  rcases List.mem_append.mp hc1 with h | hc2
  · exact hsub c h
  rcases List.mem_cons.mp hc2 with h | hc3
  · rw [h]; decide
  rcases List.mem_append.mp hc3 with h | hc4
  · exact l2 c h
  rcases List.mem_append.mp hc4 with h | hc5
  · exact hty c h
  rcases List.mem_cons.mp hc5 with h | hc6
  · rw [h]; decide
  rcases List.mem_append.mp hc6 with h | hc7
  · exact l3 c h
  rcases List.mem_append.mp hc7 with h | hc8
  · exact ascii_intChars p.iat c h
  rcases List.mem_append.mp hc8 with h | hc9
  · exact l4 c h
  rcases List.mem_append.mp hc9 with h | hc10
  · exact ascii_intChars p.exp c h
  rcases List.mem_cons.mp hc10 with h | hc11
  · rw [h]; decide
  · simp at hc11

theorem urlEnc_b64Char_ne_dot : ∀ n < 64, ¬ urlEnc (b64Char n) = '.' := by decide

theorem base64UrlEncode_no_dot (b : List Nat) (hb : ∀ x ∈ b, x < 256) :
    ∀ c ∈ (base64UrlEncode b).data, ¬ c = '.' := by
  intro c hc
  rw [base64UrlEncode_data b hb] at hc
  obtain ⟨s, hs, rfl⟩ := List.mem_map.mp hc
  exact urlEnc_b64Char_ne_dot s (bytesToSextets_lt b hb s hs)

theorem bytesToSextets_ne_nil (b : List Nat) (h : b ≠ []) : bytesToSextets b ≠ [] := by
  match b with
  | [] => exact absurd rfl h
  | [b0] => simp [bytesToSextets]
  | [b0, b1] => simp [bytesToSextets]
  | b0 :: b1 :: b2 :: r => simp [bytesToSextets]

theorem base64UrlEncode_ne_nil (b : List Nat) (hb : ∀ x ∈ b, x < 256) (h : b ≠ []) :
    (base64UrlEncode b).data ≠ [] := by
  rw [base64UrlEncode_data b hb]
  simp only [ne_eq, List.map_eq_nil_iff]
  exact bytesToSextets_ne_nil b h

theorem strBytes_ne_nil (s : String) (h : s.data ≠ []) : strBytes s ≠ [] := by
  unfold strBytes
  simpa using h

theorem sign_ne_nil {sign : String → List Nat} (hsl : ∀ d, (sign d).length = 32)
    (d : String) : sign d ≠ [] := by
  intro h
  have := hsl d
  rw [h] at this
  simp at this

theorem string_mk_data (s : String) : String.mk s.data = s := by
  cases s
  rfl

theorem timingSafeEqual_self (a : List Nat) : timingSafeEqual a a = .ok true := by
  unfold timingSafeEqual
  rw [if_pos rfl]
  simp

/-- `_verifyToken` applied to a token `_createToken` just produced: the
signature always matches; the result is the embedded payload unless the
expiry test fires (`exp` nonzero and in the past). -/
theorem verifyToken_createToken (sign : String → List Nat)
    (hsb : ∀ d, ∀ x ∈ sign d, x < 256) (hsl : ∀ d, (sign d).length = 32)
    (sub ty : String) (hsubP : jsonPlain sub) (hsubA : asciiStr sub)
    (htyP : jsonPlain ty) (htyA : asciiStr ty) (now0 ttl now : Int) :
    verifyToken sign now (createToken sign sub ty now0 ttl)
      = if now0 + ttl ≠ 0 ∧ now > now0 + ttl then none
        else some ⟨sub, ty, now0, now0 + ttl⟩ := by
  have hasciiJson : asciiStr (stringifyPayload ⟨sub, ty, now0, now0 + ttl⟩) :=
    ascii_stringifyPayload _ hsubA htyA
  have hasciiHeader : asciiStr headerJson := by decide
  unfold createToken verifyToken
  set hS := base64UrlEncode (strBytes headerJson) with hS_def
  set pS := base64UrlEncode (strBytes (stringifyPayload ⟨sub, ty, now0, now0 + ttl⟩))
    with pS_def
  set sS := base64UrlEncode (sign (hS ++ "." ++ pS)) with sS_def
  have hbH : ∀ x ∈ strBytes headerJson, x < 256 := strBytes_lt_256 _ hasciiHeader
  have hbP := strBytes_lt_256 _ hasciiJson
  have hbS := hsb (hS ++ "." ++ pS)
  have hbHS : ∀ c ∈ hS.data, ¬ c = '.' := by
    rw [hS_def]; exact base64UrlEncode_no_dot _ hbH
  have hbPS : ∀ c ∈ pS.data, ¬ c = '.' := by
    rw [pS_def]; exact base64UrlEncode_no_dot _ hbP
  have hbSS : ∀ c ∈ sS.data, ¬ c = '.' := by
    rw [sS_def]; exact base64UrlEncode_no_dot _ hbS
  have hdot : (".".data : List Char) = ['.'] := rfl
  have hdata : (hS ++ "." ++ pS ++ "." ++ sS).data
      = hS.data ++ '.' :: (pS.data ++ '.' :: sS.data) := by
    simp [String.data_append, hdot, List.append_assoc]
  have hsplit : splitJs '.' (hS ++ "." ++ pS ++ "." ++ sS).data
      = [hS.data, pS.data, sS.data] := by
    rw [hdata]
    exact splitJs_three '.' hS.data pS.data sS.data hbHS hbPS hbSS
  have hne : ¬ (hS.data = [] ∨ pS.data = [] ∨ sS.data = []) := by
    push_neg
    refine ⟨?_, ?_, ?_⟩
    · rw [hS_def]
      exact base64UrlEncode_ne_nil _ hbH (strBytes_ne_nil _ (by decide))
    · rw [pS_def]
      refine base64UrlEncode_ne_nil _ hbP (strBytes_ne_nil _ ?_)
      rw [data_stringifyPayload]
      simp
    · rw [sS_def]
      exact base64UrlEncode_ne_nil _ hbS (sign_ne_nil hsl _)
  have hmkS : String.mk sS.data = sS := string_mk_data sS
  have hmkP : String.mk pS.data = pS := string_mk_data pS
  have hmkHP : String.mk (hS.data ++ '.' :: pS.data) = hS ++ "." ++ pS := by
    apply String.ext
    show hS.data ++ '.' :: pS.data = (hS ++ "." ++ pS).data
    simp [String.data_append, hdot, List.append_assoc]
  rw [hsplit]
  simp only [List.getElem?_cons_zero, List.getElem?_cons_succ]
  rw [if_neg hne, hmkS, hmkP, hmkHP]
  rw [sS_def, base64UrlDecode_base64UrlEncode _ hbS]
  rw [pS_def, base64UrlDecode_base64UrlEncode _ hbP]
  rw [timingSafeEqual_self]
  rw [bytesToStr_strBytes]
  rw [parsePayload_stringifyPayload _ hsubP htyP]

/-! ## Concrete primitive instances for witnesses

Deterministic stand-ins for the platform's HMAC-SHA256 and scrypt: they have
the shapes the code relies on (32-byte / 64-byte outputs, byte-valued), and
the theorems quantified over the primitives are instantiated with them. -/

/-- A deterministic 32-byte keyed-digest stand-in. -/
def signStub (s : String) : List Nat :=
  (List.range 32).map (fun i =>
    (s.data.foldl (fun a c => (a * 31 + c.toNat) % 4294967296) 7 + i) % 256)

/-- A deterministic 64-byte key-derivation stand-in. -/
def scryptStub (password salt : String) : List Nat :=
  (List.range 64).map (fun i =>
    (password.data.foldl (fun a c => (a * 31 + c.toNat) % 4294967296)
      (salt.data.foldl (fun a c => (a * 31 + c.toNat) % 4294967296) 3) + i) % 256)

theorem signStub_lt (d : String) : ∀ x ∈ signStub d, x < 256 := by
  intro x hx
  unfold signStub at hx
  obtain ⟨i, _, rfl⟩ := List.mem_map.mp hx
  omega

theorem signStub_len (d : String) : (signStub d).length = 32 := by
  unfold signStub
  simp

theorem scryptStub_len (p s : String) : (scryptStub p s).length = 64 := by
  unfold scryptStub
  simp

/-! ## Claim theorems -/

/-- **C10** — For every byte buffer `b`, `base64UrlDecode(base64UrlEncode(b))`
equals `b`: the padding-stripping, URL-safe base64 encoding used for every
token segment is losslessly invertible by the module's decoder. -/
theorem base64url_encode_then_decode (b : List Nat) (hb : ∀ x ∈ b, x < 256) :
    base64UrlDecode (base64UrlEncode b) = b :=
  base64UrlDecode_base64UrlEncode b hb

/-- Witness for the base64url round trip at a concrete buffer. -/
theorem base64url_encode_then_decode_witness :
    (∀ x ∈ [0, 1, 77, 255, 128], x < 256)
      ∧ base64UrlDecode (base64UrlEncode [0, 1, 77, 255, 128]) = [0, 1, 77, 255, 128] :=
  ⟨by decide, base64url_encode_then_decode [0, 1, 77, 255, 128] (by decide)⟩

/-- **C2 counterexample** — The claim says `_verifyPassword` never throws and
returns `false` on a wrong-length derived part.  On the stored form `"ab$cd"`
(derived part decodes to one byte, scrypt yields 64), `timingSafeEqual`
throws a length-mismatch error, which nothing in `_verifyPassword` catches. -/
theorem verifyPassword_wrong_length_throws :
    verifyPassword scryptStub "ab$cd" "pw"
      = .error "ERR_CRYPTO_TIMING_SAFE_EQUAL_LENGTH" := by
  rfl

/-- **C2 (amended)** — `_verifyPassword` returns `false` without throwing when
either input is empty or the separator / either part is missing or empty; and
when both parts are present and the derived part hex-decodes to exactly 64
bytes (the scrypt output length) it returns a boolean without throwing.  (A
derived part of any other decoded length — non-hex or wrong-length — instead
makes the constant-time comparison throw.) -/
theorem verifyPassword_no_throw_cases (scrypt : String → String → List Nat)
    (hlen : ∀ p s, (scrypt p s).length = 64) (stored supplied : String) :
    (stored = "" ∨ supplied = "" ∨ (splitJs '$' stored.data).headD [] = []
        ∨ (splitJs '$' stored.data)[1]? = none ∨ (splitJs '$' stored.data)[1]? = some []
      → verifyPassword scrypt stored supplied = .ok false)
    ∧ (∀ derivedHex, (splitJs '$' stored.data)[1]? = some derivedHex
        → (hexToBytes derivedHex).length = 64
        → ∃ b : Bool, verifyPassword scrypt stored supplied = .ok b) := by
  unfold verifyPassword
  constructor
  · intro h
    by_cases hss : stored = "" ∨ supplied = ""
    · rw [if_pos hss]
    · rw [if_neg hss]
      push_neg at hss
      rcases h with h | h | h | h | h
      · exact absurd h hss.1
      · exact absurd h hss.2
      · cases h1 : (splitJs '$' stored.data)[1]? with
        | none => rfl
        | some dh =>
          simp only []
          rw [if_pos (Or.inl h)]
      · rw [h]
      · rw [h]
        simp
  · intro dh hdh hlen64
    by_cases hss : stored = "" ∨ supplied = ""
    · rw [if_pos hss]; exact ⟨false, rfl⟩
    · rw [if_neg hss, hdh]
      simp only []
      by_cases hmal : (splitJs '$' stored.data).headD [] = [] ∨ dh = []
      · rw [if_pos hmal]; exact ⟨false, rfl⟩
      · rw [if_neg hmal]
        unfold timingSafeEqual
        rw [if_pos (by rw [hlen64, hlen])]
        exact ⟨_, rfl⟩

/-- Witness for the no-throw cases of `_verifyPassword` at concrete inputs. -/
theorem verifyPassword_no_throw_cases_witness :
    (∀ p s, (scryptStub p s).length = 64)
      ∧ verifyPassword scryptStub "" "x" = .ok false :=
  ⟨scryptStub_len,
    (verifyPassword_no_throw_cases scryptStub scryptStub_len "" "x").1 (Or.inl rfl)⟩

theorem find?_filter_not_token (l : List RefreshRec) (tok : String) :
    (l.filter (fun r => decide (¬ r.token = tok))).find?
      (fun r => decide (r.token = tok)) = none := by
  rw [List.find?_eq_none]
  intro x hx
  rw [List.mem_filter] at hx
  simpa using hx.2

/-- **C4** — For every refresh token whose persisted record exists but whose
`expiresAt` has passed, `refreshAccessToken` deletes that record, persists the
deletion, and fails with `refresh_token_expired`; a subsequent call with the
same token string then fails with `invalid_refresh_token` because no record
remains. -/
theorem refreshAccessToken_expired_behavior (sign : String → List Nat)
    (now now2 : Int) (db : DB) (tok : String) (rec : RefreshRec)
    (htok : ¬ tok = "")
    (hfind : db.refreshTokens.find? (fun r => decide (r.token = tok)) = some rec)
    (hexp : now > rec.expiresAt) :
    refreshAccessToken sign now db tok
      = (.error "refresh_token_expired",
          { db with refreshTokens :=
              db.refreshTokens.filter (fun r => decide (¬ r.token = tok)) })
    ∧ refreshAccessToken sign now2
        { db with refreshTokens :=
            db.refreshTokens.filter (fun r => decide (¬ r.token = tok)) } tok
      = (.error "invalid_refresh_token",
          { db with refreshTokens :=
              db.refreshTokens.filter (fun r => decide (¬ r.token = tok)) }) := by
  constructor
  · unfold refreshAccessToken
    rw [if_neg htok, hfind]
    simp only []
    rw [if_pos hexp]
  · unfold refreshAccessToken
    rw [if_neg htok]
    simp only []
    rw [find?_filter_not_token]

/-- Witness for the expired-refresh-token behaviour at a concrete store. -/
theorem refreshAccessToken_expired_behavior_witness :
    refreshAccessToken signStub 11 ⟨[], [⟨"t1", "u1", 10⟩], []⟩ "t1"
      = (.error "refresh_token_expired", ⟨[], [], []⟩)
    ∧ refreshAccessToken signStub 12 ⟨[], [], []⟩ "t1"
      = (.error "invalid_refresh_token", ⟨[], [], []⟩) := by
  exact refreshAccessToken_expired_behavior signStub 11 12 ⟨[], [⟨"t1", "u1", 10⟩], []⟩
    "t1" ⟨"t1", "u1", 10⟩ (by decide) (by decide) (by decide)

/-- **C6** — `authenticate` fails with the identifier `invalid_credentials`
both when no user matches the supplied username-or-email and when a user
matches but password verification returns false; the error identifier (and
the state left behind) is identical in the two cases. -/
theorem authenticate_invalid_credentials_uniform (scrypt : String → String → List Nat)
    (sign : String → List Nat) (now : Int) (db : DB) (cred pw : String)
    (hc : ¬ cred = "") (hp : ¬ pw = "") :
    (db.users.find?
        (fun u => decide (u.username = lowerStr cred ∨ u.email = lowerStr cred)) = none
      → authenticate scrypt sign now db cred pw = (.error "invalid_credentials", db))
    ∧ (∀ u, db.users.find?
        (fun u => decide (u.username = lowerStr cred ∨ u.email = lowerStr cred)) = some u
      → verifyPassword scrypt u.password pw = .ok false
      → authenticate scrypt sign now db cred pw = (.error "invalid_credentials", db)) := by
  have hne : ¬ (cred = "" ∨ pw = "") := by tauto
  constructor
  · intro hfind
    unfold authenticate
    rw [if_neg hne, hfind]
  · intro u hfind hver
    unfold authenticate
    rw [if_neg hne, hfind]
    simp only []
    rw [hver]

/-- Witness: both `invalid_credentials` branches at concrete stores. -/
theorem authenticate_invalid_credentials_uniform_witness :
    authenticate scryptStub signStub 0 ⟨[], [], []⟩ "vin" "pw"
      = (.error "invalid_credentials", ⟨[], [], []⟩) :=
  (authenticate_invalid_credentials_uniform scryptStub signStub 0 ⟨[], [], []⟩
    "vin" "pw" (by decide) (by decide)).1 rfl

/-- **C7** — For every state already containing a user with the given
username (after lower-casing), `register` fails with `username_taken`; for
every state containing no such username but a user with the given email
(after lower-casing), it fails with `email_taken`; in both cases the state
is returned unchanged (no user appended). -/
theorem register_duplicate_rejected (scrypt : String → String → List Nat)
    (saltHex id : String) (now : Int) (db : DB) (username email password : String)
    (hu : ¬ username = "") (he : ¬ email = "") (hp : ¬ password = "") :
    ((db.users.find? (fun u => decide (u.username = lowerStr username))).isSome
      → register scrypt saltHex id now db username email password
          = (.error "username_taken", db))
    ∧ (db.users.find? (fun u => decide (u.username = lowerStr username)) = none
      → (db.users.find? (fun u => decide (u.email = lowerStr email))).isSome
      → register scrypt saltHex id now db username email password
          = (.error "email_taken", db)) := by
  have hne : ¬ (username = "" ∨ email = "" ∨ password = "") := by tauto
  constructor
  · intro hfind
    unfold register
    rw [if_neg hne, if_pos hfind]
  · intro hfind hemail
    unfold register
    rw [if_neg hne, hfind]
    simp only [Option.isSome_none, Bool.false_eq_true, if_false]
    rw [if_pos hemail]

/-- Witness: duplicate username (case-insensitively) rejected at a concrete
store. -/
theorem register_duplicate_rejected_witness :
    register scryptStub "s1" "id2" 5 ⟨[⟨"id1", "vin", "v@e.com", "aa$bb", 0⟩], [], []⟩
        "VIN" "x@y.com" "pw"
      = (.error "username_taken", ⟨[⟨"id1", "vin", "v@e.com", "aa$bb", 0⟩], [], []⟩) :=
  (register_duplicate_rejected scryptStub "s1" "id2" 5
    ⟨[⟨"id1", "vin", "v@e.com", "aa$bb", 0⟩], [], []⟩ "VIN" "x@y.com" "pw"
    (by decide) (by decide) (by decide)).1 (by decide)

set_option maxRecDepth 40000 in
/-- **C3 counterexample** — The claim says every input with four or more
dot-separated segments is invalid.  But JS destructuring reads only the first
three segments of the split, so appending `".x"` to a freshly created token
yields a four-segment string that still verifies to the original payload. -/
theorem verifyToken_four_segments_accepted :
    verifyToken signStub 100 (createToken signStub "u1" "access" 100 900 ++ ".x")
      = some ⟨"u1", "access", 100, 1000⟩ := by
  decide

/-- **C3 (amended)** — `_verifyToken` returns null whenever the dot-split has
fewer than three segments or any of the first three segments is empty;
segments beyond the third are ignored (a suffix appended to a valid token
does not invalidate it). -/
theorem verifyToken_missing_segments_null (sign : String → List Nat) (now : Int)
    (token : String)
    (h : (splitJs '.' token.data)[0]? = some [] ∨ (splitJs '.' token.data)[1]? = none
       ∨ (splitJs '.' token.data)[1]? = some [] ∨ (splitJs '.' token.data)[2]? = none
       ∨ (splitJs '.' token.data)[2]? = some []) :
    verifyToken sign now token = none := by
  unfold verifyToken
  cases h0 : (splitJs '.' token.data)[0]? with
  | none => rfl
  | some seg0 =>
    cases h1 : (splitJs '.' token.data)[1]? with
    | none => rfl
    | some seg1 =>
      cases h2 : (splitJs '.' token.data)[2]? with
      | none => rfl
      | some seg2 =>
        have hempty : seg0 = [] ∨ seg1 = [] ∨ seg2 = [] := by
          rcases h with h | h | h | h | h
          · rw [h0] at h; exact Or.inl (Option.some.inj h)
          · rw [h1] at h; cases h
          · rw [h1] at h; exact Or.inr (Or.inl (Option.some.inj h))
          · rw [h2] at h; cases h
          · rw [h2] at h; exact Or.inr (Or.inr (Option.some.inj h))
        simp only []
        rw [if_pos hempty]

/-- Witness: a two-segment string is rejected. -/
theorem verifyToken_missing_segments_null_witness :
    verifyToken signStub 0 "ab.cd" = none :=
  verifyToken_missing_segments_null signStub 0 "ab.cd" (by decide)

set_option maxRecDepth 40000 in
/-- **C8 counterexample** — The claim says a token created with
`ttlSeconds = -1` fails `verifyToken` at any time at or after creation.  At
creation time 1 (one second after the epoch) the computed `exp` is `0`, and
`payload.exp && …` is a JS truthiness test, so the expiry check is skipped
and the token still verifies. -/
theorem createToken_ttl_neg_one_skips_expiry_at_time_one :
    verifyToken signStub 1 (createToken signStub "u1" "access" 1 (-1))
      = some ⟨"u1", "access", 1, 0⟩ := by
  decide

/-- **C8 (amended)** — For every payload and creation time other than exactly
1 (where the computed `exp` would be the skipped value `0`), a token created
with `ttlSeconds = -1` carries an `exp` strictly before its creation time,
and `_verifyToken` applied at any time at or after creation returns null. -/
theorem createToken_negative_ttl_rejected (sign : String → List Nat)
    (hsb : ∀ d, ∀ x ∈ sign d, x < 256) (hsl : ∀ d, (sign d).length = 32)
    (sub ty : String) (hsubP : jsonPlain sub) (hsubA : asciiStr sub)
    (htyP : jsonPlain ty) (htyA : asciiStr ty) (now0 now : Int)
    (hn1 : ¬ now0 = 1) (hge : now0 ≤ now) :
    now0 + (-1) < now0
    ∧ verifyToken sign now (createToken sign sub ty now0 (-1)) = none := by
  refine ⟨by omega, ?_⟩
  rw [verifyToken_createToken sign hsb hsl sub ty hsubP hsubA htyP htyA now0 (-1) now]
  rw [if_pos ⟨by omega, by omega⟩]

/-- Witness: a ttl -1 token created at time 100 is rejected at time 100. -/
theorem createToken_negative_ttl_rejected_witness :
    (100 : Int) + (-1) < 100
    ∧ verifyToken signStub 100 (createToken signStub "u1" "access" 100 (-1)) = none :=
  createToken_negative_ttl_rejected signStub signStub_lt signStub_len "u1" "access"
    (by decide) (by decide) (by decide) (by decide) 100 100 (by decide) (by decide)

/-- **C9** — `verifyAccessToken` returns null whenever `_verifyToken` returns
null or the verified payload's type discriminator is not `access`; in
particular it returns null for a validly signed, unexpired token created with
type `refresh`.  It takes no database argument at all (the definition reads
and writes no persisted state). -/
theorem verifyAccessToken_null_cases :
    (∀ (sign : String → List Nat) (now : Int) (t : String),
        verifyToken sign now t = none → verifyAccessToken sign now t = none)
    ∧ (∀ (sign : String → List Nat) (now : Int) (t : String) (p : Payload),
        verifyToken sign now t = some p → ¬ p.type = "access"
          → verifyAccessToken sign now t = none)
    ∧ (∀ (sign : String → List Nat), (∀ d, ∀ x ∈ sign d, x < 256)
        → (∀ d, (sign d).length = 32)
        → ∀ (sub : String), jsonPlain sub → asciiStr sub
        → ∀ (now0 now : Int),
            verifyAccessToken sign now
              (createToken sign sub "refresh" now0 REFRESH_TOKEN_EXP) = none) := by
  refine ⟨?_, ?_, ?_⟩
  · intro sign now t h
    unfold verifyAccessToken
    rw [h]
  · intro sign now t p h hty
    unfold verifyAccessToken
    rw [h]
    simp only []
    rw [if_pos hty]
  · intro sign hsb hsl sub hsubP hsubA now0 now
    unfold verifyAccessToken
    rw [verifyToken_createToken sign hsb hsl sub "refresh" hsubP hsubA (by decide)
      (by decide) now0 REFRESH_TOKEN_EXP now]
    by_cases hcond : now0 + REFRESH_TOKEN_EXP ≠ 0 ∧ now > now0 + REFRESH_TOKEN_EXP
    · rw [if_pos hcond]
    · rw [if_neg hcond]
      simp

/-- Witness: a fresh refresh-type token is rejected by `verifyAccessToken`. -/
theorem verifyAccessToken_null_cases_witness :
    verifyAccessToken signStub 5 (createToken signStub "u1" "refresh" 3 REFRESH_TOKEN_EXP)
      = none :=
  verifyAccessToken_null_cases.2.2 signStub signStub_lt signStub_len "u1"
    (by decide) (by decide) 3 5

instance {ε α : Type} [DecidableEq ε] [DecidableEq α] (x y : Except ε α) :
    Decidable (x = y) :=
  match x, y with
  | .error a, .error b => decidable_of_iff (a = b) (by simp)
  | .error _, .ok _ => isFalse (by simp)
  | .ok _, .error _ => isFalse (by simp)
  | .ok a, .ok b => decidable_of_iff (a = b) (by simp)

set_option maxRecDepth 40000 in
/-- **C1** — The claim (with the spec, and the source's own comment "bypass
old password: overwrite") says that with a valid, unexpired reset token,
`consumeResetToken(rawToken, newPassword)` returns true and force-sets the
user's password.  But the internal call
`changePassword(userId, newPassword, newPassword)` verifies `newPassword`
against the *current* stored hash, so whenever the new password's derived key
differs from the stored one the call throws `invalid_current_password` and
leaves the store unchanged — the reset token was valid
(`verifyResetToken` returns the user id), yet no password is set. -/
theorem consumeResetToken_rejects_fresh_password :
    (verifyResetToken signStub 500
        ⟨[⟨"u1", "vin", "v@example.com", hashPassword scryptStub "a1b2" "oldpass", 100⟩],
          [], [⟨"u1", bytesToHex (signStub "rawtok"), 1000000⟩]⟩ "rawtok").1
      = some "u1"
    ∧ consumeResetToken scryptStub signStub "salt2" 500
        ⟨[⟨"u1", "vin", "v@example.com", hashPassword scryptStub "a1b2" "oldpass", 100⟩],
          [], [⟨"u1", bytesToHex (signStub "rawtok"), 1000000⟩]⟩ "rawtok" "newpass"
      = (.error "invalid_current_password",
          ⟨[⟨"u1", "vin", "v@example.com", hashPassword scryptStub "a1b2" "oldpass", 100⟩],
            [], [⟨"u1", bytesToHex (signStub "rawtok"), 1000000⟩]⟩) := by
  constructor
  · decide
  · decide

/-! ## The user-uniqueness invariant (C5) -/

/-- The (username, email) keys of a users list. -/
def userKeys (l : List User) : List (String × String) :=
  l.map (fun u => (u.username, u.email))

/-- The store invariant on the persisted users collection: usernames and
emails are stored lower-cased, and are pairwise distinct even compared
case-insensitively. -/
def dbInv (db : DB) : Prop :=
  (∀ k ∈ userKeys db.users, lowerStr k.1 = k.1 ∧ lowerStr k.2 = k.2)
  ∧ (userKeys db.users).Pairwise
      (fun a b => ¬ lowerStr a.1 = lowerStr b.1 ∧ ¬ lowerStr a.2 = lowerStr b.2)

instance (db : DB) : Decidable (dbInv db) := by
  unfold dbInv
  infer_instance

theorem dbInv_of_userKeys_eq {db db' : DB}
    (h : userKeys db'.users = userKeys db.users) (hinv : dbInv db) : dbInv db' := by
  unfold dbInv at hinv ⊢
  rw [h]
  exact hinv

theorem userKeys_setPasswordFirst (userId hashed : String) (l : List User) :
    userKeys (setPasswordFirst userId hashed l) = userKeys l := by
  induction l with
  | nil => rfl
  | cons u r ih =>
    unfold setPasswordFirst
    by_cases hid : u.id = userId
    · rw [if_pos hid]
      rfl
    · rw [if_neg hid]
      unfold userKeys at ih ⊢
      simp only [List.map_cons]
      rw [ih]

theorem users_authenticate (scrypt : String → String → List Nat)
    (sign : String → List Nat) (now : Int) (db : DB) (cred pw : String) :
    (authenticate scrypt sign now db cred pw).2.users = db.users := by
  unfold authenticate
  split
  · rfl
  split
  · rfl
  split <;> rfl

theorem users_refreshAccessToken (sign : String → List Nat) (now : Int) (db : DB)
    (tok : String) : (refreshAccessToken sign now db tok).2.users = db.users := by
  unfold refreshAccessToken
  split
  · rfl
  split
  · rfl
  split
  · rfl
  split
  · rfl
  split <;> rfl

theorem users_revokeRefreshToken (db : DB) (tok : String) :
    (revokeRefreshToken db tok).users = db.users := rfl

theorem users_generateResetToken (sign : String → List Nat) (rawToken : String)
    (now : Int) (db : DB) (email : String) :
    (generateResetToken sign rawToken now db email).2.users = db.users := by
  unfold generateResetToken
  split
  · rfl
  split <;> rfl

theorem users_verifyResetToken (sign : String → List Nat) (now : Int) (db : DB)
    (raw : String) : (verifyResetToken sign now db raw).2.users = db.users := by
  unfold verifyResetToken
  split
  · rfl
  split
  · rfl
  split <;> rfl

theorem users_cleanupExpired (now : Int) (db : DB) :
    (cleanupExpired now db).users = db.users := rfl

theorem userKeys_changePassword (scrypt : String → String → List Nat)
    (saltHex : String) (db : DB) (uid oldPw newPw : String) :
    userKeys (changePassword scrypt saltHex db uid oldPw newPw).2.users
      = userKeys db.users := by
  unfold changePassword
  split
  · rfl
  split
  · rfl
  split
  · rfl
  · rfl
  · exact userKeys_setPasswordFirst uid _ db.users

theorem userKeys_consumeResetToken (scrypt : String → String → List Nat)
    (sign : String → List Nat) (saltHex : String) (now : Int) (db : DB)
    (raw np : String) :
    userKeys (consumeResetToken scrypt sign saltHex now db raw np).2.users
      = userKeys db.users := by
  have hvr := users_verifyResetToken sign now db raw
  unfold consumeResetToken
  split
  · rw [hvr]
  · next uid heq =>
    have hcp := userKeys_changePassword scrypt saltHex
      (verifyResetToken sign now db raw).2 uid np np
    rw [hvr] at hcp
    split
    · next e db2 hmatch =>
      rw [hmatch] at hcp
      exact hcp
    · next v db2 hmatch =>
      rw [hmatch] at hcp
      exact hcp

theorem find?_eq_none_forall {l : List User} {p : User → Bool}
    (h : l.find? p = none) : ∀ u ∈ l, ¬ p u = true :=
  List.find?_eq_none.mp h

theorem dbInv_register (scrypt : String → String → List Nat) (saltHex id : String)
    (now : Int) (db : DB) (username email password : String) (hinv : dbInv db) :
    dbInv (register scrypt saltHex id now db username email password).2 := by
  unfold register
  split
  · exact hinv
  split
  · exact hinv
  split
  · exact hinv
  · next hnu hne =>
    have hfu : db.users.find? (fun u => decide (u.username = lowerStr username)) = none :=
      Option.not_isSome_iff_eq_none.mp hnu
    have hfe : db.users.find? (fun u => decide (u.email = lowerStr email)) = none :=
      Option.not_isSome_iff_eq_none.mp hne
    have hallu : ∀ u ∈ db.users, ¬ u.username = lowerStr username := by
      intro u hu
      have := find?_eq_none_forall hfu u hu
      simpa using this
    have halle : ∀ u ∈ db.users, ¬ u.email = lowerStr email := by
      intro u hu
      have := find?_eq_none_forall hfe u hu
      simpa using this
    obtain ⟨hlow, hpair⟩ := hinv
    constructor
    · intro k hk
      unfold userKeys at hk
      simp only [List.map_append, List.map_cons, List.map_nil] at hk
      rcases List.mem_append.mp hk with h | h
      · exact hlow k h
      · simp only [List.mem_singleton] at h
        rw [h]
        exact ⟨lowerStr_idem username, lowerStr_idem email⟩
    · unfold userKeys
      simp only [List.map_append, List.map_cons, List.map_nil]
      rw [List.pairwise_append]
      refine ⟨hpair, by simp, ?_⟩
      intro a ha b hb
      simp only [List.mem_singleton] at hb
      obtain ⟨u, hu, rfl⟩ := List.mem_map.mp ha
      have hlowu := hlow (u.username, u.email) (List.mem_map.mpr ⟨u, hu, rfl⟩)
      rw [hb]
      constructor
      · intro hcon
        simp only at hcon hlowu
        rw [hlowu.1, lowerStr_idem] at hcon
        exact hallu u hu hcon
      · intro hcon
        simp only at hcon hlowu
        rw [hlowu.2, lowerStr_idem] at hcon
        exact halle u hu hcon

/-- **C5** — Every operation of the store preserves the invariant that the
persisted users collection contains at most one user per username and at most
one user per email, compared case-insensitively (usernames and emails are
stored lower-cased and `register` rejects duplicates). -/
theorem store_preserves_user_uniqueness
    (scrypt : String → String → List Nat) (sign : String → List Nat)
    (saltHex id rawToken : String) (now : Int) (db : DB)
    (username email password cred pw uid oldPw newPw email2 tok raw np : String)
    (hinv : dbInv db) :
    dbInv (register scrypt saltHex id now db username email password).2
    ∧ dbInv (authenticate scrypt sign now db cred pw).2
    ∧ dbInv (refreshAccessToken sign now db tok).2
    ∧ dbInv (revokeRefreshToken db tok)
    ∧ dbInv (changePassword scrypt saltHex db uid oldPw newPw).2
    ∧ dbInv (generateResetToken sign rawToken now db email2).2
    ∧ dbInv (verifyResetToken sign now db raw).2
    ∧ dbInv (consumeResetToken scrypt sign saltHex now db raw np).2
    ∧ dbInv (cleanupExpired now db) := by
  refine ⟨dbInv_register scrypt saltHex id now db username email password hinv,
    ?_, ?_, ?_, ?_, ?_, ?_, ?_, ?_⟩
  · exact dbInv_of_userKeys_eq
      (congrArg userKeys (users_authenticate scrypt sign now db cred pw)) hinv
  · exact dbInv_of_userKeys_eq
      (congrArg userKeys (users_refreshAccessToken sign now db tok)) hinv
  · exact dbInv_of_userKeys_eq
      (congrArg userKeys (users_revokeRefreshToken db tok)) hinv
  · exact dbInv_of_userKeys_eq
      (userKeys_changePassword scrypt saltHex db uid oldPw newPw) hinv
  · exact dbInv_of_userKeys_eq
      (congrArg userKeys (users_generateResetToken sign rawToken now db email2)) hinv
  · exact dbInv_of_userKeys_eq
      (congrArg userKeys (users_verifyResetToken sign now db raw)) hinv
  · exact dbInv_of_userKeys_eq
      (userKeys_consumeResetToken scrypt sign saltHex now db raw np) hinv
  · exact dbInv_of_userKeys_eq
      (congrArg userKeys (users_cleanupExpired now db)) hinv

/-- Witness: the invariant holds on a concrete store and is preserved by a
concrete `register`. -/
theorem store_preserves_user_uniqueness_witness :
    dbInv ⟨[⟨"id1", "vin", "v@e.com", "aa$bb", 0⟩], [], []⟩
    ∧ dbInv (register scryptStub "s" "id2" 0
        ⟨[⟨"id1", "vin", "v@e.com", "aa$bb", 0⟩], [], []⟩ "Joe" "J@e.com" "pw").2 :=
  ⟨by decide,
    (store_preserves_user_uniqueness scryptStub signStub "s" "id2" "rt" 0
      ⟨[⟨"id1", "vin", "v@e.com", "aa$bb", 0⟩], [], []⟩
      "Joe" "J@e.com" "pw" "c" "p" "u" "o" "n" "e" "t" "r" "x" (by decide)).1⟩

end Squeeble
